import Mathlib

/-!
Verification of the byte-stream framing / relay layer and the JSON-RPC
protocol engine of the v4l2-mpp repository.

The Python sources are shallowly embedded:

* bytes are `Nat` values, byte strings are `List Nat`;
* `read_socket`, `read_h264_from_keyframe`, `read_jpeg_frames` from
  apps/stream-http/main.py become pure functions over an abstract socket
  behaviour (a connect outcome plus the list of successive recv results);
* JSON values are the inductive `JValue`; `JSONRPCServer.handle_request`
  from apps/v4l2-ctrls/jsonrpc_server.py becomes a pure function from a
  method table and a request value to a response value, with handlers
  modelled as `JValue -> Except String JValue` (an exception is `.error`
  carrying the string of the exception, the str(e) of the source);
* `ControlPersistence.save` / `load` from apps/v4l2-ctrls/persistence.py
  are modelled over the parsed JSON content of the state file (json.dump
  followed by json.load is the identity on the values involved).
-/

namespace V4l2Mpp

/-! ## JSON values -/

/-- A parsed JSON value, as produced by json.loads in the Python sources.
Numbers are integers (the sources only deal in integral control values
and integer error codes). -/
inductive JValue where
  | null : JValue
  | bool (b : Bool) : JValue
  | num (n : Int) : JValue
  | str (s : String) : JValue
  | arr (items : List JValue) : JValue
  | obj (fields : List (String × JValue)) : JValue

/-- Dictionary lookup, request.get(key): the value of the first field named
`key`, or none.  Python dicts have unique keys, so first-match lookup agrees
with dict lookup on every object that arises from json.loads. -/
def lookupField : List (String × JValue) → String → Option JValue
  | [], _ => none
  | (k, v) :: rest, key => if k = key then some v else lookupField rest key

/-! ## JSON-RPC protocol engine (apps/v4l2-ctrls/jsonrpc_server.py) -/

/-- A registered handler: takes the params value and returns a result, or
raises (modelled by `Except.error` carrying str(e)). -/
abbrev Handler : Type := JValue → Except String JValue

/-- The registered method table, self.methods: method name to handler. -/
abbrev MethodTable : Type := List (String × Handler)

/-- self.methods lookup (`method in self.methods` / `self.methods[method]`). -/
def lookupMethod : MethodTable → String → Option Handler
  | [], _ => none
  | (k, h) :: rest, key => if k = key then some h else lookupMethod rest key

/-- An error response dict as built by handle_request:
`{"jsonrpc": "2.0", "error": {"code": code, "message": message}, "id": id}`.
The message is a JValue because the application-error branch stores the raw
value of the result field named error. -/
def errorResponse (code : Int) (message : JValue) (id : JValue) : JValue :=
  .obj [("jsonrpc", .str "2.0"),
        ("error", .obj [("code", .num code), ("message", message)]),
        ("id", id)]

/-- A success response dict: `{"jsonrpc": "2.0", "result": result, "id": id}`. -/
def resultResponse (result : JValue) (id : JValue) : JValue :=
  .obj [("jsonrpc", .str "2.0"), ("result", result), ("id", id)]

/-- The check `jsonrpc != "2.0"` (negated): true exactly when the field value
is the string "2.0".  A missing field (none) and every non-string value
compare unequal to the Python string "2.0". -/
def isV2 : Option JValue → Bool
  | some (.str s) => s == "2.0"
  | _ => false

/-- The check `isinstance(params, (dict, list, type(None)))`. -/
def paramsValid : JValue → Bool
  | .obj _ => true
  | .arr _ => true
  | .null => true
  | _ => false

/-- The normalization `if isinstance(params, list): params = {}`. -/
def normalizeParams : JValue → JValue
  | .arr _ => .obj []
  | p => p

/-- JSONRPCServer.handle_request, embedded clause by clause.  Python
request.get with no default is modelled by `lookupField` followed by
`Option.getD JValue.null` where the later uses only compare or echo the
value (missing and null are both Python None there); params keeps its
explicit default of the empty dict. -/
def handle_request (methods : MethodTable) (request : JValue) : JValue :=
  match request with
  | .obj fields =>
    let reqId := (lookupField fields "id").getD .null
    if isV2 (lookupField fields "jsonrpc") then
      match lookupField fields "method" with
      | some (.str m) =>
        match lookupMethod methods m with
        | some handler =>
          let params := (lookupField fields "params").getD (.obj [])
          if paramsValid params then
            match handler (normalizeParams params) with
            | .ok result =>
              match result with
              | .obj rfields =>
                match lookupField rfields "error" with
                | some errVal => errorResponse (-32000) errVal reqId
                | none => resultResponse result reqId
              | _ => resultResponse result reqId
            | .error e =>
              errorResponse (-32603) (.str ("Internal error: " ++ e)) reqId
          else
            errorResponse (-32602)
              (.str "Invalid params: must be dict, list, or null") reqId
        | none => errorResponse (-32601) (.str ("Method not found: " ++ m)) reqId
      | _ =>
        errorResponse (-32600) (.str "Invalid Request: method must be string") reqId
    else
      errorResponse (-32600)
        (.str "Invalid Request: jsonrpc must be '2.0'") reqId
  | _ => errorResponse (-32600) (.str "Invalid Request") .null

/-! ## Byte-stream reader and H264 relay (apps/stream-http/main.py) -/

/-- The connect failure raised out of sock.connect when the endpoint cannot
be reached (for example the socket file is missing): the connection error
that read_socket propagates before yielding anything. -/
inductive ConnError where
  | connectionError (msg : String)

/-- What the environment does on one read_socket session: either the initial
connect fails, or it succeeds and the successive sock.recv calls return the
listed byte chunks (an empty chunk is a zero-length read, peer close). -/
inductive SocketBehavior where
  | connectFail (e : ConnError)
  | connected (recvs : List (List Nat))

/-- The receive loop of read_socket: yield each chunk, stop at the first
zero-length read (`if not chunk: break`). -/
def recvLoop : List (List Nat) → List (List Nat)
  | [] => []
  | c :: cs => if c = [] then [] else c :: recvLoop cs

/-- read_socket: propagate a connect failure; once connected, yield chunks
until a zero-length read. -/
def read_socket : SocketBehavior → Except ConnError (List (List Nat))
  | .connectFail e => .error e
  | .connected recvs => .ok (recvLoop recvs)

/-- The body of read_h264_from_keyframe: `for chunk in read_socket(...):
yield chunk`, one chunk re-yielded per iteration. -/
def relayLoop : List (List Nat) → List (List Nat)
  | [] => []
  | c :: cs => c :: relayLoop cs

/-- read_h264_from_keyframe: iterate over read_socket and re-yield every
chunk (a connect failure propagates out of the generator unchanged). -/
def read_h264_from_keyframe (b : SocketBehavior) : Except ConnError (List (List Nat)) :=
  match read_socket b with
  | .error e => .error e
  | .ok chunks => .ok (relayLoop chunks)

/-! ## JPEG frame extractor (read_jpeg_frames) -/

/-- bytes.find of the two-byte pattern a b: index of the first position
where a is immediately followed by b, none when absent. -/
def findPair (a b : Nat) : List Nat → Option Nat
  | x :: y :: rest =>
    if x = a ∧ y = b then some 0
    else (findPair a b (y :: rest)).map (· + 1)
  | _ => none

/-- `i + 2 ≤ length` when findPair finds the pair at `i`. -/
theorem findPair_some_length {a b : Nat} :
    ∀ {l : List Nat} {i : Nat}, findPair a b l = some i → i + 2 ≤ l.length
  | x :: y :: rest, i, h => by
    rw [findPair] at h
    split at h
    · cases h
      simp
    · rcases Option.map_eq_some'.mp h with ⟨j, hj, rfl⟩
      have := findPair_some_length (l := y :: rest) hj
      simpa [Nat.add_comm, Nat.add_left_comm] using Nat.add_le_add_right this 1

/-- The inner `while True` loop of read_jpeg_frames on the current buffer:
returns the frames yielded from this buffer and the residual buffer kept
for the next chunk.  Branches, in source order: no start marker found keeps
at most the last byte; a start without a following end marker keeps the
buffer from the start marker; a start and an end marker yield
buf[start:end + 2] and rescan buf[end + 2:]. -/
def scanBuf (buf : List Nat) : List (List Nat) × List Nat :=
  match h1 : findPair 255 216 buf with
  | none => ([], buf.drop (buf.length - 1))
  | some s =>
    match findPair 255 217 (buf.drop (s + 2)) with
    | none => ([], buf.drop s)
    | some e =>
      let rest := scanBuf (buf.drop (s + e + 4))
      ((buf.drop s).take (e + 4) :: rest.1, rest.2)
termination_by buf.length
decreasing_by
  have h2 := findPair_some_length h1
  simp only [List.length_drop]
  omega

/-- The chunk loop of read_jpeg_frames: `buf += chunk` then the inner scan,
collecting the yielded frames across chunks. -/
def read_jpeg_frames_go (buf : List Nat) : List (List Nat) → List (List Nat)
  | [] => []
  | c :: cs =>
    (scanBuf (buf ++ c)).1 ++ read_jpeg_frames_go (scanBuf (buf ++ c)).2 cs

/-- read_jpeg_frames as a function of the chunk sequence it consumes:
starts from the empty buffer (`buf = b''`). -/
def read_jpeg_frames (chunks : List (List Nat)) : List (List Nat) :=
  read_jpeg_frames_go [] chunks

/-- The specification-side extraction, modelled from the words of the spec:
the in-order sequence of non-overlapping spans of the whole input that
begin with FF D8 and end with the first following FF D9, both markers
included; a trailing span whose end marker never arrives contributes
nothing. -/
def jpegSpans (data : List Nat) : List (List Nat) :=
  match h1 : findPair 255 216 data with
  | none => []
  | some s =>
    match findPair 255 217 (data.drop (s + 2)) with
    | none => []
    | some e => (data.drop s).take (e + 4) :: jpegSpans (data.drop (s + e + 4))
termination_by data.length
decreasing_by
  have h2 := findPair_some_length h1
  simp only [List.length_drop]
  omega

/-! ## MJPEG responder output (CameraHandler.handle_mjpeg_stream) -/

/-- One observable interaction with the HTTP client during streaming. -/
inductive WireEvent where
  | write (bytes : List Nat)
  | flush

/-- The bytes of an ASCII string literal of the source. -/
def asciiBytes (s : String) : List Nat := s.data.map Char.toNat

/-- The fixed multipart part header written before each frame. -/
def mjpegPartHeader : List Nat :=
  asciiBytes "--frame\r\nContent-Type: image/jpeg\r\n\r\n"

/-- The streaming loop of handle_mjpeg_stream: for every frame, write the
part header, write the frame, write CRLF, flush. -/
def mjpegStreamLoop : List (List Nat) → List WireEvent
  | [] => []
  | f :: fs =>
    .write mjpegPartHeader :: .write f :: .write (asciiBytes "\r\n") ::
      .flush :: mjpegStreamLoop fs

/-! ## Control persistence (apps/v4l2-ctrls/persistence.py) -/

/-- The state file as load sees it: absent, unreadable or unparseable
(json.JSONDecodeError / IOError), or holding a parsed JSON value. -/
inductive FileContent where
  | absent
  | malformed
  | json (v : JValue)

/-- ControlPersistence.save: the file afterwards holds the JSON object with
one integer field per entry of the mapping. -/
def save (values : List (String × Int)) : FileContent :=
  .json (.obj (values.map fun kv => (kv.1, .num kv.2)))

/-- ControlPersistence.load: an absent or malformed file and a non-object
document give the empty mapping; from an object, keep the fields whose
value is an integer (Python bool is an int subtype, so true and false pass
isinstance(value, int) as 1 and 0). -/
def load : FileContent → List (String × Int)
  | .absent => []
  | .malformed => []
  | .json (.obj fields) =>
    fields.filterMap fun kv =>
      match kv.2 with
      | .num n => some (kv.1, n)
      | .bool b => some (kv.1, if b then 1 else 0)
      | _ => none
  | .json _ => []

/-! ## Lemmas about the reader, relay, responder and persistence -/

/-- The receive loop passes nonempty chunks through and stops at the first
empty one. -/
theorem recvLoop_append_nil (pre rest : List (List Nat))
    (hpre : ∀ c ∈ pre, c ≠ []) :
    recvLoop (pre ++ [] :: rest) = pre := by
  induction pre with
  | nil => simp [recvLoop]
  | cons c cs ih =>
    have hc : c ≠ [] := hpre c (by simp)
    simp only [List.cons_append, recvLoop, if_neg hc, List.append_eq]
    rw [ih fun d hd => hpre d (by simp [hd])]

/-- The relay for-loop re-yields its input list unchanged. -/
theorem relayLoop_id (l : List (List Nat)) : relayLoop l = l := by
  induction l with
  | nil => rfl
  | cons c cs ih => rw [relayLoop, ih]

/-- The MJPEG write loop emits, per frame in order, exactly the part header
write, the frame write, the CRLF write and a flush. -/
theorem mjpegStreamLoop_eq_bind (fs : List (List Nat)) :
    mjpegStreamLoop fs =
      fs.flatMap fun f =>
        [.write mjpegPartHeader, .write f, .write (asciiBytes "\r\n"), .flush] := by
  induction fs with
  | nil => rfl
  | cons f fs ih => simp [mjpegStreamLoop, ih]

/-- Saving a string-to-integer mapping and loading it back is the identity. -/
theorem load_save (values : List (String × Int)) : load (save values) = values := by
  induction values with
  | nil => rfl
  | cons kv rest ih =>
    simp only [save, load, List.map_cons, List.filterMap_cons] at ih ⊢
    rw [ih]

/-! ## Lemmas about handle_request -/

/-- isV2 holds exactly on the string value "2.0". -/
theorem isV2_eq_true {o : Option JValue} :
    isV2 o = true ↔ o = some (.str "2.0") := by
  cases o with
  | none => simp [isV2]
  | some v => cases v <;> simp [isV2]

/-- The response shape exactly as claim C9 states it: an object whose
jsonrpc field is "2.0", with an id field, and exactly one of a result
field or an error field, the error carrying an integer code and a string
message. -/
def ResponseWellFormedStrict (resp : JValue) : Prop :=
  ∃ fields, resp = .obj fields ∧
    lookupField fields "jsonrpc" = some (.str "2.0") ∧
    (lookupField fields "id").isSome = true ∧
    ((∃ v, lookupField fields "result" = some v ∧
        lookupField fields "error" = none) ∨
     (∃ c msg, lookupField fields "error" =
          some (.obj [("code", .num c), ("message", msg)]) ∧
        lookupField fields "result" = none ∧
        (∃ s, msg = .str s)))

/-- The response shape with the one weakening the code forces: in the
application-error case (code -32000) the message is the raw value of the
error field of the handler result, which need not be a string; every other
error message is a string. -/
def ResponseWellFormed (resp : JValue) : Prop :=
  ∃ fields, resp = .obj fields ∧
    lookupField fields "jsonrpc" = some (.str "2.0") ∧
    (lookupField fields "id").isSome = true ∧
    ((∃ v, lookupField fields "result" = some v ∧
        lookupField fields "error" = none) ∨
     (∃ c msg, lookupField fields "error" =
          some (.obj [("code", .num c), ("message", msg)]) ∧
        lookupField fields "result" = none ∧
        (c = -32000 ∨ ∃ s, msg = .str s)))

/-- Every success response is well formed. -/
theorem wellFormed_resultResponse (v i : JValue) :
    ResponseWellFormed (resultResponse v i) := by
  refine ⟨_, rfl, ?_, ?_, Or.inl ⟨v, ?_, ?_⟩⟩ <;> simp [lookupField]

/-- Every error response whose message is a string, or whose code is
-32000, is well formed. -/
theorem wellFormed_errorResponse (c : Int) (msg i : JValue)
    (h : c = -32000 ∨ ∃ s, msg = .str s) :
    ResponseWellFormed (errorResponse c msg i) := by
  refine ⟨_, rfl, ?_, ?_, Or.inr ⟨c, msg, ?_, ?_, h⟩⟩ <;> simp [lookupField]

/-! ## Lemmas about the JPEG extractor -/

theorem scanBuf_none {buf : List Nat} (h : findPair 255 216 buf = none) :
    scanBuf buf = ([], buf.drop (buf.length - 1)) := by
  rw [scanBuf]
  split
  · rfl
  · simp_all

theorem scanBuf_noEnd {buf : List Nat} {s : Nat}
    (h1 : findPair 255 216 buf = some s)
    (h2 : findPair 255 217 (buf.drop (s + 2)) = none) :
    scanBuf buf = ([], buf.drop s) := by
  rw [scanBuf]
  split
  · simp_all
  · rename_i s' heq
    rw [h1] at heq
    cases heq
    split
    · rfl
    · simp_all

theorem scanBuf_cons {buf : List Nat} {s e : Nat}
    (h1 : findPair 255 216 buf = some s)
    (h2 : findPair 255 217 (buf.drop (s + 2)) = some e) :
    scanBuf buf = ((buf.drop s).take (e + 4) :: (scanBuf (buf.drop (s + e + 4))).1,
      (scanBuf (buf.drop (s + e + 4))).2) := by
  rw [scanBuf]
  split
  · simp_all
  · rename_i s' heq
    rw [h1] at heq
    cases heq
    split
    · simp_all
    · rename_i e' heq2
      rw [h2] at heq2
      cases heq2
      rfl

theorem jpegSpans_none {data : List Nat} (h : findPair 255 216 data = none) :
    jpegSpans data = [] := by
  rw [jpegSpans]
  split
  · rfl
  · simp_all

theorem jpegSpans_noEnd {data : List Nat} {s : Nat}
    (h1 : findPair 255 216 data = some s)
    (h2 : findPair 255 217 (data.drop (s + 2)) = none) :
    jpegSpans data = [] := by
  rw [jpegSpans]
  split
  · rfl
  · rename_i s' heq
    rw [h1] at heq
    cases heq
    split
    · rfl
    · simp_all

theorem jpegSpans_cons {data : List Nat} {s e : Nat}
    (h1 : findPair 255 216 data = some s)
    (h2 : findPair 255 217 (data.drop (s + 2)) = some e) :
    jpegSpans data = (data.drop s).take (e + 4) :: jpegSpans (data.drop (s + e + 4)) := by
  rw [jpegSpans]
  split
  · simp_all
  · rename_i s' heq
    rw [h1] at heq
    cases heq
    split
    · simp_all
    · rename_i e' heq2
      rw [h2] at heq2
      cases heq2
      rfl



theorem findPair_cons_self (a b : Nat) (t : List Nat) :
    findPair a b (a :: b :: t) = some 0 := by
  simp [findPair]

theorem findPair_short {a b : Nat} {l : List Nat} (h : l.length ≤ 1) :
    findPair a b l = none := by
  match l, h with
  | [], _ => rfl
  | [x], _ => rfl

theorem findPair_some_drop {a b : Nat} :
    ∀ {l : List Nat} {i : Nat}, findPair a b l = some i →
      l.drop i = a :: b :: l.drop (i + 2)
  | x :: y :: rest, i, h => by
    rw [findPair] at h
    split at h
    · rename_i hab
      cases h
      simp [hab.1, hab.2]
    · rcases Option.map_eq_some'.mp h with ⟨j, hj, rfl⟩
      have ih := findPair_some_drop (l := y :: rest) hj
      have e3 : j + 1 + 2 = (j + 2) + 1 := by omega
      rw [e3, List.drop_succ_cons, List.drop_succ_cons]
      exact ih

theorem findPair_min {a b : Nat} :
    ∀ {l : List Nat} {i : Nat}, findPair a b l = some i →
      ∀ j, l[j]? = some a → l[j + 1]? = some b → i ≤ j
  | x :: y :: rest, i, h, j, hj1, hj2 => by
    rw [findPair] at h
    split at h
    · cases h
      exact Nat.zero_le j
    · rename_i hab
      rcases Option.map_eq_some'.mp h with ⟨k, hk, rfl⟩
      cases j with
      | zero =>
        simp only [List.getElem?_cons_zero, List.getElem?_cons_succ,
          Option.some.injEq] at hj1 hj2
        exact absurd ⟨hj1, hj2⟩ hab
      | succ j' =>
        have := findPair_min (l := y :: rest) hk j'
          (by simpa using hj1) (by simpa using hj2)
        omega

theorem findPair_append_some {a b : Nat} :
    ∀ {l : List Nat} {i : Nat} (m : List Nat), findPair a b l = some i →
      findPair a b (l ++ m) = some i
  | x :: y :: rest, i, m, h => by
    rw [findPair] at h
    rw [List.cons_append, List.cons_append, findPair]
    split at h
    · cases h
      rw [if_pos ‹_›]
    · rename_i hab
      rw [if_neg hab]
      rcases Option.map_eq_some'.mp h with ⟨k, hk, rfl⟩
      have ih := findPair_append_some (l := y :: rest) m hk
      rw [List.cons_append] at ih
      rw [ih]
      rfl

theorem findPair_append_last {a b : Nat} :
    ∀ (l : List Nat) (x : Nat) (m : List Nat),
      findPair a b (l ++ [x]) = none →
      findPair a b ((l ++ [x]) ++ m) = (findPair a b (x :: m)).map (· + l.length)
  | [], x, m, _ => by
    cases hf : findPair a b (x :: m) <;> simp [hf]
  | z :: l', x, m, h => by
    obtain ⟨w, t, hwt⟩ : ∃ w t, l' ++ [x] = w :: t := by
      cases l' <;> exact ⟨_, _, rfl⟩
    rw [List.cons_append, hwt, findPair] at h
    split at h
    · exact Option.noConfusion h
    · rename_i hab
      have hnone : findPair a b (w :: t) = none := Option.map_eq_none'.mp h
      have ih := findPair_append_last l' x m (by rw [hwt]; exact hnone)
      rw [show ((z :: l') ++ [x]) ++ m = z :: w :: (t ++ m) by
        rw [List.cons_append, List.cons_append, hwt, List.cons_append]]
      rw [findPair, if_neg hab]
      rw [show w :: (t ++ m) = (l' ++ [x]) ++ m by rw [hwt, List.cons_append]]
      rw [ih]
      cases hf : findPair a b (x :: m) <;> simp [hf] <;> omega



theorem drop_append_ge (l r : List Nat) (n : Nat) (h : l.length ≤ n) :
    (l ++ r).drop n = r.drop (n - l.length) := by
  rw [List.drop_append_eq_append_drop, List.drop_eq_nil_of_le h, List.nil_append]

theorem drop_append_le (l r : List Nat) (n : Nat) (h : n ≤ l.length) :
    (l ++ r).drop n = l.drop n ++ r := by
  rw [List.drop_append_eq_append_drop, Nat.sub_eq_zero_of_le h, List.drop_zero]

theorem take_append_le (l r : List Nat) (n : Nat) (h : n ≤ l.length) :
    (l ++ r).take n = l.take n := by
  rw [List.take_append_eq_append_take, Nat.sub_eq_zero_of_le h, List.take_zero,
    List.append_nil]

theorem jpegSpans_drop_start {buf : List Nat} {s : Nat}
    (h : findPair 255 216 buf = some s) (extra : List Nat) :
    jpegSpans (buf ++ extra) = jpegSpans (buf.drop s ++ extra) := by
  have hlen := findPair_some_length h
  have hd := findPair_some_drop h
  have houter : findPair 255 216 (buf ++ extra) = some s := findPair_append_some extra h
  have houter2 : findPair 255 216 (buf.drop s ++ extra) = some 0 := by
    rw [hd, List.cons_append, List.cons_append]
    exact findPair_cons_self _ _ _
  have hscr : (buf ++ extra).drop (s + 2) = buf.drop (s + 2) ++ extra :=
    drop_append_le _ _ _ hlen
  have hscr2 : (buf.drop s ++ extra).drop (0 + 2) = buf.drop (s + 2) ++ extra := by
    rw [hd, List.cons_append, List.cons_append]
    rfl
  cases hI : findPair 255 217 (buf.drop (s + 2) ++ extra) with
  | none =>
    rw [jpegSpans_noEnd houter (by rw [hscr]; exact hI),
      jpegSpans_noEnd houter2 (by rw [hscr2]; exact hI)]
  | some e =>
    rw [jpegSpans_cons houter (by rw [hscr]; exact hI),
      jpegSpans_cons houter2 (by rw [hscr2]; exact hI)]
    congr 1
    · rw [drop_append_le _ _ _ (by omega), List.drop_zero]
    · congr 1
      rw [show s + e + 4 = s + (e + 4) by omega, ← List.drop_drop,
        drop_append_le _ _ _ (by omega), show (0 : Nat) + e + 4 = e + 4 by omega]

theorem scanBuf_spec_aux : ∀ (n : Nat) (buf : List Nat), buf.length ≤ n → ∀ extra,
    jpegSpans (buf ++ extra) = (scanBuf buf).1 ++ jpegSpans ((scanBuf buf).2 ++ extra) := by
  intro n
  induction n with
  | zero =>
    intro buf hb extra
    obtain rfl : buf = [] := List.eq_nil_of_length_eq_zero (Nat.le_zero.mp hb)
    rw [scanBuf_none (show findPair 255 216 [] = none from rfl)]
    simp
  | succ n ih =>
    intro buf hb extra
    cases h1 : findPair 255 216 buf with
    | none =>
      rw [scanBuf_none h1]
      rcases List.eq_nil_or_concat buf with rfl | ⟨l, x, rfl⟩
      · simp
      · simp only [List.concat_eq_append] at h1 hb ⊢
        have hres : (l ++ [x]).drop ((l ++ [x]).length - 1) = [x] := by
          simp
        rw [hres, List.nil_append]
        have key := findPair_append_last (a := 255) (b := 216) l x extra h1
        rw [List.append_assoc, List.singleton_append] at key ⊢
        cases hx : findPair 255 216 (x :: extra) with
        | none =>
          rw [hx] at key
          simp only [Option.map_none'] at key
          rw [jpegSpans_none key, jpegSpans_none hx]
        | some s0 =>
          rw [hx] at key
          simp only [Option.map_some'] at key
          have e1 : jpegSpans (l ++ x :: extra) =
              jpegSpans ((l ++ x :: extra).drop (s0 + l.length)) := by
            have := jpegSpans_drop_start key []
            simpa using this
          have e2 : jpegSpans (x :: extra) = jpegSpans ((x :: extra).drop s0) := by
            simpa using jpegSpans_drop_start hx []
          have e3 : (l ++ x :: extra).drop (s0 + l.length) = (x :: extra).drop s0 := by
            rw [drop_append_ge _ _ _ (by omega)]
            congr 1
            omega
          rw [e1, e3, e2]
    | some s =>
      cases h2 : findPair 255 217 (buf.drop (s + 2)) with
      | none =>
        rw [scanBuf_noEnd h1 h2, List.nil_append]
        exact jpegSpans_drop_start h1 extra
      | some e =>
        rw [scanBuf_cons h1 h2]
        have hlen := findPair_some_length h1
        have hlen2 := findPair_some_length h2
        rw [List.length_drop] at hlen2
        have houter : findPair 255 216 (buf ++ extra) = some s :=
          findPair_append_some extra h1
        have hscr : (buf ++ extra).drop (s + 2) = buf.drop (s + 2) ++ extra :=
          drop_append_le _ _ _ hlen
        have hinner : findPair 255 217 ((buf ++ extra).drop (s + 2)) = some e := by
          rw [hscr]
          exact findPair_append_some extra h2
        rw [jpegSpans_cons houter hinner]
        have hframe : ((buf ++ extra).drop s).take (e + 4) = (buf.drop s).take (e + 4) := by
          rw [drop_append_le _ _ _ (by omega),
            take_append_le _ _ _ (by rw [List.length_drop]; omega)]
        have harg : (buf ++ extra).drop (s + e + 4) = buf.drop (s + e + 4) ++ extra :=
          drop_append_le _ _ _ (by omega)
        rw [hframe, harg]
        rw [ih (buf.drop (s + e + 4)) (by rw [List.length_drop]; omega) extra]
        simp [List.cons_append]

theorem scanBuf_resid_aux : ∀ (n : Nat) (buf : List Nat), buf.length ≤ n →
    jpegSpans (scanBuf buf).2 = [] := by
  intro n
  induction n with
  | zero =>
    intro buf hb
    obtain rfl : buf = [] := List.eq_nil_of_length_eq_zero (Nat.le_zero.mp hb)
    rw [scanBuf_none (show findPair 255 216 [] = none from rfl)]
    exact jpegSpans_none (show findPair 255 216 [] = none from rfl)
  | succ n ih =>
    intro buf hb
    cases h1 : findPair 255 216 buf with
    | none =>
      rw [scanBuf_none h1]
      refine jpegSpans_none (findPair_short ?_)
      rw [List.length_drop]
      omega
    | some s =>
      cases h2 : findPair 255 217 (buf.drop (s + 2)) with
      | none =>
        rw [scanBuf_noEnd h1 h2]
        have hd := findPair_some_drop h1
        refine jpegSpans_noEnd (s := 0) ?_ ?_
        · rw [hd]
          exact findPair_cons_self _ _ _
        · rw [show (0 : Nat) + 2 = 2 from rfl, List.drop_drop]
          exact h2
      | some e =>
        rw [scanBuf_cons h1 h2]
        have hlen := findPair_some_length h1
        exact ih (buf.drop (s + e + 4)) (by rw [List.length_drop]; omega)

theorem read_jpeg_frames_go_spec : ∀ (cs : List (List Nat)) (buf : List Nat),
    jpegSpans buf = [] → read_jpeg_frames_go buf cs = jpegSpans (buf ++ cs.flatten)
  | [], buf, h => by
    rw [read_jpeg_frames_go, List.flatten_nil, List.append_nil, h]
  | c :: cs, buf, h => by
    rw [read_jpeg_frames_go]
    rw [read_jpeg_frames_go_spec cs _ (scanBuf_resid_aux (buf ++ c).length _ le_rfl)]
    rw [List.flatten_cons, ← List.append_assoc]
    rw [scanBuf_spec_aux (buf ++ c).length _ le_rfl]

theorem read_jpeg_frames_eq_jpegSpans (chunks : List (List Nat)) :
    read_jpeg_frames chunks = jpegSpans chunks.flatten := by
  rw [read_jpeg_frames, read_jpeg_frames_go_spec chunks [] (jpegSpans_none rfl),
    List.nil_append]



theorem mem_jpegSpans_aux : ∀ (n : Nat) (data f : List Nat), data.length ≤ n →
    f ∈ jpegSpans data →
    4 ≤ f.length ∧ f.take 2 = [255, 216] ∧ f.drop (f.length - 2) = [255, 217] ∧
    ∀ i, i + 2 < f.length → ¬(f[i]? = some 255 ∧ f[i + 1]? = some 217) := by
  intro n
  induction n with
  | zero =>
    intro data f hb hf
    obtain rfl : data = [] := List.eq_nil_of_length_eq_zero (Nat.le_zero.mp hb)
    rw [jpegSpans_none (show findPair 255 216 [] = none from rfl)] at hf
    cases hf
  | succ n ih =>
    intro data f hb hf
    cases h1 : findPair 255 216 data with
    | none =>
      rw [jpegSpans_none h1] at hf
      cases hf
    | some s =>
      cases h2 : findPair 255 217 (data.drop (s + 2)) with
      | none =>
        rw [jpegSpans_noEnd h1 h2] at hf
        cases hf
      | some e =>
        rw [jpegSpans_cons h1 h2] at hf
        have hlen := findPair_some_length h1
        have hlen2 := findPair_some_length h2
        rw [List.length_drop] at hlen2
        rcases List.mem_cons.mp hf with rfl | hmem
        · have hd := findPair_some_drop h1
          have he := findPair_some_drop h2
          have hflen : ((data.drop s).take (e + 4)).length = e + 4 := by
            rw [List.length_take, List.length_drop]
            omega
          refine ⟨by omega, ?_, ?_, ?_⟩
          · rw [List.take_take, show min 2 (e + 4) = 2 by omega, hd]
            rfl
          · rw [hflen, show e + 4 - 2 = e + 2 by omega, List.drop_take,
              show e + 4 - (e + 2) = 2 by omega, List.drop_drop]
            rw [List.drop_drop] at he
            rw [show s + (e + 2) = s + 2 + e by omega, he]
            rfl
          · intro i hi hpair
            rw [hflen] at hi
            obtain ⟨hp1, hp2⟩ := hpair
            have ht1 : (data.drop s)[i]? = some 255 := by
              rw [List.getElem?_take] at hp1
              rw [if_pos (by omega : i < e + 4)] at hp1
              exact hp1
            have ht2 : (data.drop s)[i + 1]? = some 217 := by
              rw [List.getElem?_take] at hp2
              rw [if_pos (by omega : i + 1 < e + 4)] at hp2
              exact hp2
            rcases i with _ | _ | k
            · rw [hd] at ht2
              simp at ht2
            · rw [hd] at ht1
              simp at ht1
            · have hT1 : (data.drop (s + 2))[k]? = some 255 := by
                rw [List.getElem?_drop]
                rw [List.getElem?_drop] at ht1
                rw [show s + 2 + k = s + (k + 1 + 1) by omega]
                exact ht1
              have hT2 : (data.drop (s + 2))[k + 1]? = some 217 := by
                rw [List.getElem?_drop]
                rw [List.getElem?_drop] at ht2
                rw [show s + 2 + (k + 1) = s + (k + 1 + 1 + 1) by omega]
                exact ht2
              have := findPair_min h2 k hT1 hT2
              omega
        · exact ih (data.drop (s + e + 4)) f (by rw [List.length_drop]; omega) hmem



theorem read_jpeg_frames_example :
    read_jpeg_frames [[255, 216, 0, 255, 217]] = [[255, 216, 0, 255, 217]] := by
  rw [read_jpeg_frames, read_jpeg_frames_go, read_jpeg_frames_go]
  rw [show ([] : List Nat) ++ [255, 216, 0, 255, 217] = [255, 216, 0, 255, 217] from rfl]
  rw [scanBuf_cons
    (show findPair 255 216 [255, 216, 0, 255, 217] = some 0 from rfl)
    (show findPair 255 217 (([255, 216, 0, 255, 217] : List Nat).drop (0 + 2)) = some 1
      from rfl)]
  rw [scanBuf_none
    (show findPair 255 216 (([255, 216, 0, 255, 217] : List Nat).drop (0 + 1 + 4)) = none
      from rfl)]
  rfl

/-! ## Claims -/

/-- C1: the sequence of frames yielded by the JPEG extractor over any finite
sequence of byte chunks is exactly the in-order sequence of non-overlapping
spans of the concatenated input that begin with FF D8 and end with the first
following FF D9, both markers included; a trailing span whose end marker
never arrives is dropped without error. -/
theorem C1_extractor_yields_marker_spans (chunks : List (List Nat)) :
    read_jpeg_frames chunks = jpegSpans chunks.flatten :=
  read_jpeg_frames_eq_jpegSpans chunks

/-- C2: for every dict request whose jsonrpc field is missing or not exactly
the string "2.0", handle_request returns the -32600 error response whose id
is the id field of the request (null when absent); the result does not
depend on the method table, so no handler is invoked. -/
theorem C2_invalid_jsonrpc_version (fields : List (String × JValue))
    (methods : MethodTable)
    (h : lookupField fields "jsonrpc" ≠ some (.str "2.0")) :
    handle_request methods (.obj fields) =
      errorResponse (-32600) (.str "Invalid Request: jsonrpc must be '2.0'")
        ((lookupField fields "id").getD .null) := by
  have hv : isV2 (lookupField fields "jsonrpc") = false := by
    cases hb : isV2 (lookupField fields "jsonrpc")
    · rfl
    · exact absurd (isV2_eq_true.mp hb) h
  simp [handle_request, hv]

/-- C2 witness: the spec example, jsonrpc "1.0" with id 2, yields the
-32600 error echoing id 2, with no methods registered. -/
theorem C2_invalid_jsonrpc_version_witness :
    handle_request []
        (.obj [("jsonrpc", .str "1.0"), ("method", .str "ping"), ("id", .num 2)]) =
      errorResponse (-32600) (.str "Invalid Request: jsonrpc must be '2.0'")
        (.num 2) :=
  C2_invalid_jsonrpc_version _ [] (by intro hc; simp [lookupField] at hc)

/-- C3: for a valid request (object, jsonrpc "2.0", registered method,
object params) whose handler raises with message e, handle_request returns
the -32603 error response whose message is the concatenation of the prefix
Internal error and e (so it contains e), echoing the request id; the
exception is absorbed, the function still returns a response. -/
theorem C3_handler_exception_internal_error (fields : List (String × JValue))
    (methods : MethodTable) (m : String) (handler : Handler)
    (ps : List (String × JValue)) (e : String)
    (hj : lookupField fields "jsonrpc" = some (.str "2.0"))
    (hm : lookupField fields "method" = some (.str m))
    (hh : lookupMethod methods m = some handler)
    (hp : (lookupField fields "params").getD (.obj []) = .obj ps)
    (he : handler (.obj ps) = .error e) :
    handle_request methods (.obj fields) =
      errorResponse (-32603) (.str ("Internal error: " ++ e))
        ((lookupField fields "id").getD .null) ∧
    ∃ p, "Internal error: " ++ e = p ++ e := by
  refine ⟨?_, "Internal error: ", rfl⟩
  simp [handle_request, hj, hm, hh, hp, he, isV2, paramsValid, normalizeParams]

/-- C3 witness: a handler raising with message boom yields the -32603 error
whose message contains boom, echoing id 7. -/
theorem C3_handler_exception_internal_error_witness :
    handle_request [("crash", fun _ => Except.error "boom")]
        (.obj [("jsonrpc", .str "2.0"), ("method", .str "crash"), ("id", .num 7)]) =
      errorResponse (-32603) (.str ("Internal error: " ++ "boom")) (.num 7) ∧
    ∃ p, "Internal error: " ++ "boom" = p ++ "boom" :=
  C3_handler_exception_internal_error _ _ "crash" _ [] "boom"
    rfl rfl rfl rfl rfl

/-- C4: for every dict request with jsonrpc "2.0" and a string method not
registered in the table, handle_request returns the -32601 error response
echoing the request id.  No hypothesis constrains the params field, so the
equation holds for invalid params too: the method check precedes params
validation (the witness exercises exactly that). -/
theorem C4_method_not_found (fields : List (String × JValue))
    (methods : MethodTable) (m : String)
    (hj : lookupField fields "jsonrpc" = some (.str "2.0"))
    (hm : lookupField fields "method" = some (.str m))
    (hnone : lookupMethod methods m = none) :
    handle_request methods (.obj fields) =
      errorResponse (-32601) (.str ("Method not found: " ++ m))
        ((lookupField fields "id").getD .null) := by
  simp [handle_request, hj, hm, hnone, isV2]

/-- C4 witness: the spec example, unknown method with id 3, here with
params that would fail params validation, still yields -32601 echoing
id 3. -/
theorem C4_method_not_found_witness :
    handle_request []
        (.obj [("jsonrpc", .str "2.0"), ("method", .str "missing"),
          ("params", .num 5), ("id", .num 3)]) =
      errorResponse (-32601) (.str ("Method not found: " ++ "missing"))
        (.num 3) :=
  C4_method_not_found _ [] "missing" rfl rfl rfl

/-- C5: the reader propagates an initial connect failure as the connection
error, before yielding anything; once connected, a zero-length read ends
the chunk sequence normally (Except.ok), with the chunks read so far, so
the two failure modes are distinguishable. -/
theorem C5_reader_connect_error_vs_clean_eof (e : ConnError)
    (pre rest : List (List Nat)) (hpre : ∀ c ∈ pre, c ≠ []) :
    read_socket (.connectFail e) = Except.error e ∧
    read_socket (.connected (pre ++ [] :: rest)) = Except.ok pre :=
  ⟨rfl, congrArg Except.ok (recvLoop_append_nil pre rest hpre)⟩

/-- C5 witness: a missing socket file surfaces as the connection error,
while a session that reads two chunks and then a zero-length read returns
exactly those two chunks without error. -/
theorem C5_reader_connect_error_vs_clean_eof_witness :
    read_socket (.connectFail (.connectionError "No such file or directory")) =
      Except.error (.connectionError "No such file or directory") ∧
    read_socket (.connected ([[1, 2], [3]] ++ [] :: [[9]])) =
      Except.ok [[1, 2], [3]] :=
  C5_reader_connect_error_vs_clean_eof _ _ _ (by decide)

/-- C6: the H264 relay is extensionally equal to the byte-stream reader it
consumes: same chunks, same order, nothing dropped, inserted or re-framed,
and the same propagated connect error; in particular no keyframe seeking
happens despite the name. -/
theorem C6_h264_relay_equals_reader (b : SocketBehavior) :
    read_h264_from_keyframe b = read_socket b := by
  cases b with
  | connectFail e => rfl
  | connected recvs => simp [read_h264_from_keyframe, read_socket, relayLoop_id]

/-- C7: for every frame produced by the JPEG extractor, the MJPEG responder
writes exactly the multipart part header, then the frame bytes, then CRLF,
and flushes after each frame before processing the next one. -/
theorem C7_mjpeg_frame_framing (chunks : List (List Nat)) :
    mjpegStreamLoop (read_jpeg_frames chunks) =
      (read_jpeg_frames chunks).flatMap fun f =>
        [.write mjpegPartHeader, .write f, .write (asciiBytes "\r\n"), .flush] :=
  mjpegStreamLoop_eq_bind _

/-- C8: save followed by load is the identity on string-to-integer
mappings, and load on an absent or malformed state file returns the empty
mapping (load is a total function, so it never raises). -/
theorem C8_persistence_roundtrip_and_default :
    (∀ values : List (String × Int), load (save values) = values) ∧
    load .absent = [] ∧ load .malformed = [] :=
  ⟨load_save, rfl, rfl⟩

/-- C9 (amended): handle_request is total and always returns a response
object with jsonrpc "2.0", an id field, and exactly one of a result or an
error field; the error code is an integer, and the error message is a
string except possibly in the application-error case (-32000), where it is
the raw value of the error field the handler returned. -/
theorem C9_response_well_formed (methods : MethodTable) (request : JValue) :
    ResponseWellFormed (handle_request methods request) := by
  cases request with
  | obj fields =>
    simp only [handle_request]
    repeat' split
    all_goals
      first
        | exact wellFormed_resultResponse _ _
        | exact wellFormed_errorResponse _ _ _ (Or.inl rfl)
        | exact wellFormed_errorResponse _ _ _ (Or.inr ⟨_, rfl⟩)
  | null => exact wellFormed_errorResponse _ _ _ (Or.inr ⟨_, rfl⟩)
  | bool b => exact wellFormed_errorResponse _ _ _ (Or.inr ⟨_, rfl⟩)
  | num n => exact wellFormed_errorResponse _ _ _ (Or.inr ⟨_, rfl⟩)
  | str s => exact wellFormed_errorResponse _ _ _ (Or.inr ⟨_, rfl⟩)
  | arr items => exact wellFormed_errorResponse _ _ _ (Or.inr ⟨_, rfl⟩)

/-- C9 counterexample: a handler that returns an object whose error field
is the number 42 produces a response whose error message is not a string,
refuting the claim as stated at this concrete input. -/
theorem C9_counterexample :
    ¬ ResponseWellFormedStrict
        (handle_request [("m", fun _ => Except.ok (.obj [("error", .num 42)]))]
          (.obj [("jsonrpc", .str "2.0"), ("method", .str "m"), ("id", .num 1)])) := by
  intro h
  obtain ⟨fields, hfe, hj, hid, hdis⟩ := h
  have hcomp :
      handle_request [("m", fun _ => Except.ok (.obj [("error", .num 42)]))]
        (.obj [("jsonrpc", .str "2.0"), ("method", .str "m"), ("id", .num 1)]) =
      errorResponse (-32000) (.num 42) (.num 1) := rfl
  rw [hcomp, errorResponse] at hfe
  obtain rfl := (JValue.obj.injEq _ _).mp hfe.symm
  rcases hdis with ⟨v, hv, -⟩ | ⟨c, msg, herr, -, s, hs⟩
  · simp [lookupField] at hv
  · simp only [lookupField, if_neg, if_pos] at herr
    have hmsg : msg = .num 42 := by
      simp [lookupField] at herr
      exact herr.2.symm
    rw [hmsg] at hs
    cases hs

/-- C10: every frame yielded by the JPEG extractor is at least 4 bytes long,
begins with FF D8, ends with FF D9, and contains no occurrence of FF D9
beginning before its final two bytes (the end marker chosen is the first one
after the start marker). -/
theorem C10_frame_invariants (chunks : List (List Nat)) (f : List Nat)
    (hf : f ∈ read_jpeg_frames chunks) :
    4 ≤ f.length ∧ f.take 2 = [255, 216] ∧ f.drop (f.length - 2) = [255, 217] ∧
    ∀ i, i + 2 < f.length → ¬(f[i]? = some 255 ∧ f[i + 1]? = some 217) := by
  rw [read_jpeg_frames_eq_jpegSpans] at hf
  exact mem_jpegSpans_aux chunks.flatten.length chunks.flatten f le_rfl hf

/-- C10 witness: the single-chunk input holding one five-byte frame yields
that frame, and the frame satisfies every invariant. -/
theorem C10_frame_invariants_witness :
    4 ≤ ([255, 216, 0, 255, 217] : List Nat).length ∧
    ([255, 216, 0, 255, 217] : List Nat).take 2 = [255, 216] ∧
    ([255, 216, 0, 255, 217] : List Nat).drop
      (([255, 216, 0, 255, 217] : List Nat).length - 2) = [255, 217] ∧
    ∀ i, i + 2 < ([255, 216, 0, 255, 217] : List Nat).length →
      ¬(([255, 216, 0, 255, 217] : List Nat)[i]? = some 255 ∧
        ([255, 216, 0, 255, 217] : List Nat)[i + 1]? = some 217) :=
  C10_frame_invariants [[255, 216, 0, 255, 217]] [255, 216, 0, 255, 217]
    (by rw [read_jpeg_frames_example]; exact List.mem_singleton_self _)

end V4l2Mpp
